import Mathlib

/-!
Verification of the event-system repository's event bus
(src/event bus/EventBus.hpp) against its specification.

The embedding models event types as elements of an abstract type with
decidable equality (standing for distinct C++ types), and every event value
as an element of a fixed payload type, since the routing and buffering logic
of the bus is independent of the concrete payload.

The Signal/Connection collaborator (signal.hpp, part of this repository but
outside the event-bus source file) is modelled from the spec: a dispatch
point is a list of bound callables invoked in subscription order.  To make
re-entrant enqueuing observable (section 4.2 of the spec), a bound callable
is modelled as a function from the delivered event to the list of same-type
events the callable re-entrantly enqueues during its invocation; dispatch
and trigger return an explicit invocation log of (pool id, callable index,
event value) records.
-/

set_option maxHeartbeats 1000000

section Defs

variable {τ : Type} {V : Type} [DecidableEq τ]

/-- Modelled from the spec: a callable bound into a Signal dispatch point.
Invoking the callable with an event value yields the list of same-type events
the callable re-entrantly enqueues into the pool during the invocation (a
callable that does not re-enter the bus returns the empty list). -/
def Handler (V : Type) : Type := V → List V

/-- Modelled from the spec: Signal invocation invokes every bound callable
once, in subscription order, with the event value.  Returns the log of
(callable index, event) invocations and the concatenated list of events the
callables re-entrantly enqueue, in invocation order. -/
def invokeSignal (hs : List (Handler V)) (v : V) : List (Nat × V) × List V :=
  ((List.range hs.length).map (fun i => (i, v)), (hs.map (fun h => h v)).flatten)

/-- EventBus::EventPool, the per-event-type pool: one Signal dispatch point
(mSignal) and one ordered buffer of pending events (mEventQueue). -/
structure EventPool (V : Type) where
  mSignal : List (Handler V)
  mEventQueue : List V

/-- A freshly constructed pool (new EventPool with default members): no bound
callables and an empty pending buffer. -/
def emptyPool : EventPool V := ⟨[], []⟩

/-- EventPool::TriggerEvent: constructs the event and invokes mSignal with it
immediately; nothing is buffered by the trigger itself, but re-entrant
enqueues performed by the invoked callables are appended to the buffer. -/
def EventPool.TriggerEvent (p : EventPool V) (v : V) :
    EventPool V × List (Nat × V) :=
  ({ p with mEventQueue := p.mEventQueue ++ (invokeSignal p.mSignal v).2 },
   (invokeSignal p.mSignal v).1)

/-- EventPool::EnqueueEvent: constructs the event and appends it to
mEventQueue (push_back for aggregates, emplace_back otherwise; both append an
equivalent value).  No callable is invoked. -/
def EventPool.EnqueueEvent (p : EventPool V) (v : V) : EventPool V :=
  { p with mEventQueue := p.mEventQueue ++ [v] }

/-- EventPool::ClearEventQueue: mEventQueue.clear(). -/
def EventPool.ClearEventQueue (p : EventPool V) : EventPool V :=
  { p with mEventQueue := [] }

/-- EventPool::DispatchQueuedEvents: the range-for iterates the buffer as it
was on entry (begin and end are taken once; events appended re-entrantly by
the invoked callables are appended behind the captured end and are not
visited), invoking mSignal with each buffered event in order; afterwards
ClearEventQueue() clears the whole buffer, the re-entrantly appended events
included.  The model assumes iterator stability of the vector during the
loop (no reallocation), the only reading under which the loop is defined. -/
def EventPool.DispatchQueuedEvents (p : EventPool V) :
    EventPool V × List (Nat × V) :=
  (EventPool.ClearEventQueue
     { p with
         mEventQueue :=
           p.mEventQueue ++
             p.mEventQueue.flatMap (fun v => (invokeSignal p.mSignal v).2) },
   p.mEventQueue.flatMap (fun v => (invokeSignal p.mSignal v).1))

/-- The global registry state behind GetUniqueEventId / GetEventId: the
static counter (static int id) and, for each event type whose GetEventId
instantiation has run its initializer, the cached id (static int eventID),
most recently initialized first. -/
structure Registry (τ : Type) where
  nextId : Nat
  assigned : List (τ × Nat)

/-- The registry at program start: counter zero, no cached ids. -/
def initRegistry : Registry τ := ⟨0, []⟩

/-- Lookup of the cached per-type id among the initialized static locals. -/
def lookupId : List (τ × Nat) → τ → Option Nat
  | [], _ => none
  | (t, i) :: rest, s => if s = t then some i else lookupId rest s

/-- GetUniqueEventId: returns the current value of the static counter and
increments it (return id++). -/
def GetUniqueEventId (r : Registry τ) : Nat × Registry τ :=
  (r.nextId, ⟨r.nextId + 1, r.assigned⟩)

/-- GetEventId for an event type: on the first request the static local is
initialized from GetUniqueEventId() and cached; later requests return the
cached id unchanged. -/
def GetEventId (T : τ) (r : Registry τ) : Nat × Registry τ :=
  match lookupId r.assigned T with
  | some i => (i, r)
  | none => (r.nextId, ⟨r.nextId + 1, (T, r.nextId) :: r.assigned⟩)

/-- The EventBus: mEventPools, a vector of owning pointers to pools indexed
by event type id; an empty slot (null pointer) is modelled as none. -/
structure EventBus (V : Type) where
  mEventPools : List (Option (EventPool V))

/-- A default-constructed bus: no pools. -/
def initBus : EventBus V := ⟨[]⟩

/-- The mEventPools.resize(n) call in GetEventHandler: the vector only grows
(the call is guarded by an index-out-of-range check), padding with null. -/
def resizePools (ps : List (Option (EventPool V))) (n : Nat) :
    List (Option (EventPool V)) :=
  ps ++ List.replicate (n - ps.length) none

/-- EventBus::GetEventHandler: obtains the type id, grows mEventPools if the
id is out of range, allocates the pool if the slot is null, and returns the
id of the slot holding the pool together with the updated bus and registry
state. -/
def GetEventHandler (T : τ) (bus : EventBus V) (r : Registry τ) :
    Nat × EventBus V × Registry τ :=
  let idx := (GetEventId T r).1
  let pools := resizePools bus.mEventPools (idx + 1)
  match pools.getD idx none with
  | none => (idx, ⟨pools.set idx (some emptyPool)⟩, (GetEventId T r).2)
  | some _ => (idx, ⟨pools⟩, (GetEventId T r).2)

/-- The call pattern shared by every pool-mutating bus member
(GetEventHandler<Event>() followed by a member call on the returned pool
reference): resolve or create the pool for the type and update it in place.
The slot returned by GetEventHandler always holds a pool, so the none branch
is unreachable. -/
def withPool (T : τ) (g : EventPool V → EventPool V)
    (bus : EventBus V) (r : Registry τ) : EventBus V × Registry τ :=
  let idx := (GetEventHandler T bus r).1
  let bus' := (GetEventHandler T bus r).2.1
  match bus'.mEventPools.getD idx none with
  | none => (bus', (GetEventHandler T bus r).2.2)
  | some p =>
    (⟨bus'.mEventPools.set idx (some (g p))⟩, (GetEventHandler T bus r).2.2)

/-- EventBus::TriggerEvent: resolves or creates the pool for the type and
calls its TriggerEvent.  The log tags each invocation with the pool's id. -/
def EventBus.TriggerEvent (T : τ) (v : V) (bus : EventBus V) (r : Registry τ) :
    EventBus V × Registry τ × List (Nat × Nat × V) :=
  let idx := (GetEventHandler T bus r).1
  let bus' := (GetEventHandler T bus r).2.1
  match bus'.mEventPools.getD idx none with
  | none => (bus', (GetEventHandler T bus r).2.2, [])
  | some p =>
    (⟨bus'.mEventPools.set idx (some (p.TriggerEvent v).1)⟩,
     (GetEventHandler T bus r).2.2,
     (p.TriggerEvent v).2.map (fun e => (idx, e.1, e.2)))

/-- EventBus::EnqueueEvent: resolves or creates the pool for the type and
calls its EnqueueEvent. -/
def EventBus.EnqueueEvent (T : τ) (v : V) (bus : EventBus V) (r : Registry τ) :
    EventBus V × Registry τ :=
  withPool T (fun p => p.EnqueueEvent v) bus r

/-- EventBus::SubscribeToEvent: resolves or creates the pool for the type and
binds the callable into its Signal.  Modelled from the spec: Signal::Bind
appends the callable behind the already-bound ones (subscription order); the
returned Connection handle belongs to the external collaborator and is not
modelled beyond the binding itself. -/
def EventBus.SubscribeToEvent (T : τ) (f : Handler V)
    (bus : EventBus V) (r : Registry τ) : EventBus V × Registry τ :=
  withPool T (fun p => { p with mSignal := p.mSignal ++ [f] }) bus r

/-- The loop body of the parameterless EventBus::DispatchQueuedEvents:
walks mEventPools from index i upwards, skipping null slots and calling
DispatchQueuedEvents on each existing pool in index order.  Returns the
updated slots and the concatenated invocation log tagged with pool ids. -/
def dispatchPools :
    List (Option (EventPool V)) → Nat →
      List (Option (EventPool V)) × List (Nat × Nat × V)
  | [], _ => ([], [])
  | none :: rest, i =>
    ((none : Option (EventPool V)) :: (dispatchPools rest (i + 1)).1,
     (dispatchPools rest (i + 1)).2)
  | some p :: rest, i =>
    (some (p.DispatchQueuedEvents).1 :: (dispatchPools rest (i + 1)).1,
     (p.DispatchQueuedEvents).2.map (fun e => (i, e.1, e.2)) ++
       (dispatchPools rest (i + 1)).2)

/-- EventBus::DispatchQueuedEvents (no type parameters): flushes every
existing pool in slot order, skipping null slots, creating nothing. -/
def EventBus.DispatchQueuedEvents (bus : EventBus V) :
    EventBus V × List (Nat × Nat × V) :=
  (⟨(dispatchPools bus.mEventPools 0).1⟩, (dispatchPools bus.mEventPools 0).2)

/-- EventBus::ClearEventQueues (no type parameters): calls ClearEventQueue on
every existing pool, skipping null slots, creating nothing. -/
def EventBus.ClearEventQueues (bus : EventBus V) : EventBus V :=
  ⟨bus.mEventPools.map (Option.map EventPool.ClearEventQueue)⟩

/-- EventBus::ClearEventQueues over a type list: the fold expression calls
GetEventHandler for each named type, left to right, and clears the resolved
or freshly created pool's buffer. -/
def EventBus.ClearEventQueuesSel (Ts : List τ)
    (bus : EventBus V) (r : Registry τ) : EventBus V × Registry τ :=
  Ts.foldl (fun s T => withPool T EventPool.ClearEventQueue s.1 s.2) (bus, r)

/-- Modelled from the spec: the selective dispatch over a type list resolves
or creates each named pool, left to right, and flushes its buffer exactly as
the pool's DispatchQueuedEvents does.  The source's fold expression instead
calls GetEventHandler<Event>().DispatchEvents(), a member EventPool does not
declare (its flush member is named DispatchQueuedEvents), and it calls the
non-const GetEventHandler from a const member function, so the selective
overload in the source fails to compile when instantiated; this definition
follows the spec's description of the intended behavior. -/
def EventBus.DispatchQueuedEventsSel (Ts : List τ)
    (bus : EventBus V) (r : Registry τ) :
    EventBus V × Registry τ × List (Nat × Nat × V) :=
  Ts.foldl
    (fun s T =>
      let idx := (GetEventHandler T s.1 s.2.1).1
      let bus' := (GetEventHandler T s.1 s.2.1).2.1
      match bus'.mEventPools.getD idx none with
      | none => (bus', (GetEventHandler T s.1 s.2.1).2.2, s.2.2)
      | some p =>
        (⟨bus'.mEventPools.set idx (some (p.DispatchQueuedEvents).1)⟩,
         (GetEventHandler T s.1 s.2.1).2.2,
         s.2.2 ++ (p.DispatchQueuedEvents).2.map (fun e => (idx, e.1, e.2))))
    (bus, r, [])

/-- The operations a program can perform on one bus (the selective dispatch
overload is absent because it does not compile, see
EventBus.DispatchQueuedEventsSel). -/
inductive BusOp (τ V : Type) where
  | trigger : τ → V → BusOp τ V
  | enqueue : τ → V → BusOp τ V
  | subscribe : τ → Handler V → BusOp τ V
  | dispatchAll : BusOp τ V
  | clearAll : BusOp τ V
  | clearSel : List τ → BusOp τ V

/-- One step of a program driving the bus. -/
def busStep (s : EventBus V × Registry τ) : BusOp τ V → EventBus V × Registry τ
  | .trigger T v =>
    ((EventBus.TriggerEvent T v s.1 s.2).1, (EventBus.TriggerEvent T v s.1 s.2).2.1)
  | .enqueue T v => EventBus.EnqueueEvent T v s.1 s.2
  | .subscribe T f => EventBus.SubscribeToEvent T f s.1 s.2
  | .dispatchAll => ((EventBus.DispatchQueuedEvents s.1).1, s.2)
  | .clearAll => (EventBus.ClearEventQueues s.1, s.2)
  | .clearSel Ts => EventBus.ClearEventQueuesSel Ts s.1 s.2

/-- A program run from a fresh process (fresh registry) and a fresh bus. -/
def busRun (ops : List (BusOp τ V)) : EventBus V × Registry τ :=
  ops.foldl busStep (initBus, initRegistry)

/-- The pool for an event type exists in a bus state when the type has an
assigned id and the slot at that id holds a pool. -/
def PoolExists (T : τ) (s : EventBus V × Registry τ) : Bool :=
  match lookupId s.2.assigned T with
  | some i => (s.1.mEventPools.getD i none).isSome
  | none => false

/-- Whether one operation is a Trigger, Enqueue, or Subscribe for the event
type. -/
def opTES (T : τ) : BusOp τ V → Bool
  | .trigger T' _ => decide (T' = T)
  | .enqueue T' _ => decide (T' = T)
  | .subscribe T' _ => decide (T' = T)
  | _ => false

/-- Whether a program performed a Trigger, Enqueue, or Subscribe for the
event type. -/
def seenTES (ops : List (BusOp τ V)) (T : τ) : Bool :=
  ops.any (opTES T)

/-- Whether one operation creates the event type's pool when the pool is
absent: a Trigger, Enqueue, or Subscribe for the type, or a selective clear
naming it. -/
def opCreates (T : τ) : BusOp τ V → Bool
  | .trigger T' _ => decide (T' = T)
  | .enqueue T' _ => decide (T' = T)
  | .subscribe T' _ => decide (T' = T)
  | .clearSel Ts => decide (T ∈ Ts)
  | _ => false

/-- Whether a program performed any pool-creating operation for the event
type. -/
def seenCreating (ops : List (BusOp τ V)) (T : τ) : Bool :=
  ops.any (opCreates T)

/-- Enqueue a sequence of events for one type, in order, with no intervening
dispatch or clear. -/
def enqueueMany (T : τ) (as : List V) (s : EventBus V × Registry τ) :
    EventBus V × Registry τ :=
  as.foldl (fun s a => EventBus.EnqueueEvent T a s.1 s.2) s

/-- The invariant of the registry: the cached ids are exactly the counter's
past values (most recent first) and no type is cached twice. -/
def RegGood (r : Registry τ) : Prop :=
  r.assigned.map Prod.snd = (List.range r.nextId).reverse ∧
    (r.assigned.map Prod.fst).Nodup

/-- Registry states reachable from process start by some sequence of
GetEventId instantiations. -/
def RegReachable (r : Registry τ) : Prop :=
  ∃ ts : List τ, (ts.foldl (fun r t => (GetEventId t r).2) initRegistry) = r

/-- A sample pool for a payload type of naturals: one bound callable that
re-entrantly enqueues v + 1 when invoked with v, and one pending event 5. -/
def samplePool : EventPool Nat := ⟨[fun v => [v + 1]], [5]⟩

/-- A sample callable that never re-enters the bus. -/
def noopHandler : Handler Nat := fun _ => []

/-- A sample bus state: a callable subscribed to event type 0. -/
def sampleSub : EventBus Nat × Registry Nat :=
  EventBus.SubscribeToEvent 0 noopHandler initBus initRegistry

/-- A sample bus state with two event types: a callable subscribed to each of
types 0 and 1, and one pending event 9 for type 1. -/
def sampleTwo : EventBus Nat × Registry Nat :=
  busRun [.subscribe 0 noopHandler, .subscribe 1 noopHandler, .enqueue 1 9]

end Defs

section ListLemmas

variable {α β : Type}

/-- Padding a list with copies of the default value is invisible to getD. -/
theorem getD_append_replicate (ps : List α) (k : Nat) (d : α) (j : Nat) :
    (ps ++ List.replicate k d).getD j d = ps.getD j d := by
  induction ps generalizing j with
  | nil =>
    simp only [List.nil_append, List.getD_nil]
    induction k generalizing j with
    | zero => simp [List.getD_nil]
    | succ k ih =>
      cases j with
      | zero => simp [List.replicate_succ]
      | succ j => simpa [List.replicate_succ] using ih j
  | cons a ps ih =>
    cases j with
    | zero => simp
    | succ j => simpa using ih j

/-- Reading the slot just written by set. -/
theorem getD_set_eq (l : List α) (i : Nat) (a d : α) (h : i < l.length) :
    (l.set i a).getD i d = a := by
  induction l generalizing i with
  | nil => simp at h
  | cons b l ih =>
    cases i with
    | zero => simp
    | succ i =>
      simp only [List.set_cons_succ, List.getD_cons_succ]
      exact ih i (by simpa using h)

/-- Reading any other slot after a set. -/
theorem getD_set_ne (l : List α) (i j : Nat) (a d : α) (h : i ≠ j) :
    (l.set i a).getD j d = l.getD j d := by
  induction l generalizing i j with
  | nil => simp
  | cons b l ih =>
    cases i with
    | zero =>
      cases j with
      | zero => exact absurd rfl h
      | succ j => simp
    | succ i =>
      cases j with
      | zero => simp
      | succ j =>
        simp only [List.set_cons_succ, List.getD_cons_succ]
        exact ih i j (fun hc => h (by rw [hc]))

/-- A getD that does not return the default reads inside the list. -/
theorem lt_length_of_getD_ne (l : List α) (j : Nat) (d : α)
    (h : l.getD j d ≠ d) : j < l.length := by
  induction l generalizing j with
  | nil => simp [List.getD_nil] at h
  | cons b l ih =>
    cases j with
    | zero => simp
    | succ j =>
      simp only [List.getD_cons_succ] at h
      simpa using ih j h

/-- getD commutes with mapping over optional slots when the default is none. -/
theorem getD_map_option (ps : List (Option α)) (f : α → β) (j : Nat) :
    (ps.map (Option.map f)).getD j none = (ps.getD j none).map f := by
  induction ps generalizing j with
  | nil => simp [List.getD_nil]
  | cons a ps ih =>
    cases j with
    | zero => simp
    | succ j => simpa using ih j

end ListLemmas

section RegistryLemmas

variable {τ : Type} [DecidableEq τ]

/-- A successful cached-id lookup comes from an entry of the cache. -/
theorem lookupId_mem {l : List (τ × Nat)} {T : τ} {i : Nat}
    (h : lookupId l T = some i) : (T, i) ∈ l := by
  induction l with
  | nil => simp [lookupId] at h
  | cons p l ih =>
    obtain ⟨t, j⟩ := p
    by_cases ht : T = t
    · subst ht
      simp [lookupId] at h
      simp [h]
    · simp [lookupId, ht] at h
      exact List.mem_cons_of_mem _ (ih h)

/-- A failed lookup means the type has no entry in the cache. -/
theorem lookupId_none_not_mem {l : List (τ × Nat)} {T : τ}
    (h : lookupId l T = none) : T ∉ l.map Prod.fst := by
  induction l with
  | nil => simp
  | cons p l ih =>
    obtain ⟨t, j⟩ := p
    by_cases ht : T = t
    · subst ht; simp [lookupId] at h
    · simp [lookupId, ht] at h
      simpa [ht] using ih h

/-- With no duplicate keys, a cache entry determines the lookup result. -/
theorem lookupId_of_mem {l : List (τ × Nat)} {T : τ} {i : Nat}
    (hn : (l.map Prod.fst).Nodup) (hm : (T, i) ∈ l) :
    lookupId l T = some i := by
  induction l with
  | nil => simp at hm
  | cons p l ih =>
    obtain ⟨t, j⟩ := p
    simp only [List.map_cons, List.nodup_cons] at hn
    rcases List.mem_cons.1 hm with he | hm'
    · obtain ⟨h1, h2⟩ := Prod.mk.injEq .. ▸ he
      injection he with h1 h2
      subst h1; subst h2
      simp [lookupId]
    · have ht : T ≠ t := by
        intro hc; subst hc
        exact hn.1 (List.mem_map.2 ⟨(T, i), hm', rfl⟩)
      simp [lookupId, ht]
      exact ih hn.2 hm'

/-- With no duplicate values, a value identifies its key. -/
theorem keys_eq_of_snd_nodup {l : List (τ × Nat)} {a b : τ} {c : Nat}
    (hn : (l.map Prod.snd).Nodup) (ha : (a, c) ∈ l) (hb : (b, c) ∈ l) :
    a = b := by
  induction l with
  | nil => simp at ha
  | cons p l ih =>
    obtain ⟨t, j⟩ := p
    simp only [List.map_cons, List.nodup_cons] at hn
    rcases List.mem_cons.1 ha with hea | ha'
    · injection hea with h1 h2
      subst h1; subst h2
      rcases List.mem_cons.1 hb with heb | hb'
      · injection heb with h3 h4; exact h3.symm
      · exact absurd (List.mem_map.2 ⟨(b, c), hb', rfl⟩) hn.1
    · rcases List.mem_cons.1 hb with heb | hb'
      · injection heb with h3 h4
        subst h3; subst h4
        exact absurd (List.mem_map.2 ⟨(a, c), ha', rfl⟩) hn.1
      · exact ih hn.2 ha' hb'

/-- The fresh registry satisfies the registry invariant. -/
theorem regGood_init : RegGood (initRegistry : Registry τ) := by
  constructor <;> simp [initRegistry, RegGood]

/-- GetEventId preserves the registry invariant. -/
theorem regGood_getEventId {r : Registry τ} (h : RegGood r) (T : τ) :
    RegGood (GetEventId T r).2 := by
  unfold GetEventId
  cases hl : lookupId r.assigned T with
  | some i => exact h
  | none =>
    obtain ⟨hs, hf⟩ := h
    refine ⟨?_, ?_⟩
    · simp only [List.map_cons]
      rw [hs, List.range_succ, List.reverse_append]
      simp
    · simp only [List.map_cons, List.nodup_cons]
      exact ⟨lookupId_none_not_mem hl, hf⟩

/-- Every reachable registry state satisfies the registry invariant. -/
theorem regGood_of_reachable {r : Registry τ} (h : RegReachable r) :
    RegGood r := by
  obtain ⟨ts, hts⟩ := h
  subst hts
  have : ∀ (ts : List τ) (r : Registry τ), RegGood r →
      RegGood (ts.foldl (fun r t => (GetEventId t r).2) r) := by
    intro ts
    induction ts with
    | nil => intro r hr; exact hr
    | cons t ts ih => intro r hr; exact ih _ (regGood_getEventId hr t)
  exact this ts _ regGood_init

/-- Under the registry invariant the counter equals the number of cached
types. -/
theorem regGood_length {r : Registry τ} (h : RegGood r) :
    r.assigned.length = r.nextId := by
  have := congrArg List.length h.1
  simpa using this

/-- Under the registry invariant the cached ids are pairwise distinct. -/
theorem regGood_snd_nodup {r : Registry τ} (h : RegGood r) :
    (r.assigned.map Prod.snd).Nodup := by
  rw [h.1]
  exact List.nodup_reverse.2 (List.nodup_range _)

/-- Under the registry invariant, distinct types have distinct cached ids. -/
theorem regGood_inj {r : Registry τ} (h : RegGood r) {T U : τ} {i j : Nat}
    (hT : lookupId r.assigned T = some i) (hU : lookupId r.assigned U = some j)
    (hne : T ≠ U) : i ≠ j := by
  intro hc
  subst hc
  exact hne (keys_eq_of_snd_nodup (regGood_snd_nodup h)
    (lookupId_mem hT) (lookupId_mem hU))

/-- Under the registry invariant an id is cached exactly when it is below
the counter. -/
theorem regGood_dense {r : Registry τ} (h : RegGood r) (i : Nat) :
    (∃ T, lookupId r.assigned T = some i) ↔ i < r.nextId := by
  constructor
  · rintro ⟨T, hT⟩
    have hm := lookupId_mem hT
    have : i ∈ r.assigned.map Prod.snd := List.mem_map.2 ⟨(T, i), hm, rfl⟩
    rw [h.1] at this
    simpa using this
  · intro hi
    have : i ∈ r.assigned.map Prod.snd := by
      rw [h.1]; simpa using hi
    obtain ⟨⟨T, j⟩, hm, hj⟩ := List.mem_map.1 this
    cases hj
    exact ⟨T, lookupId_of_mem h.2 hm⟩

/-- After GetEventId the requested type's id is cached at the returned id. -/
theorem lookupId_after_getEventId (T : τ) (r : Registry τ) :
    lookupId (GetEventId T r).2.assigned T = some (GetEventId T r).1 := by
  unfold GetEventId
  cases hl : lookupId r.assigned T with
  | some i => simpa using hl
  | none => simp [lookupId]

/-- GetEventId leaves other types' cached ids unchanged. -/
theorem lookupId_getEventId_other {T U : τ} (hne : U ≠ T) (r : Registry τ) :
    lookupId (GetEventId T r).2.assigned U = lookupId r.assigned U := by
  unfold GetEventId
  cases hl : lookupId r.assigned T with
  | some i => rfl
  | none => simp [lookupId, hne]

/-- A cached id stays cached after any further GetEventId. -/
theorem lookupId_getEventId_mono {U T : τ} {r : Registry τ} {i : Nat}
    (h : lookupId r.assigned U = some i) :
    lookupId (GetEventId T r).2.assigned U = some i := by
  by_cases hu : U = T
  · subst hu
    rw [lookupId_after_getEventId]
    unfold GetEventId
    simp [h]
  · rw [lookupId_getEventId_other hu, h]

end RegistryLemmas

section HandlerLemmas

variable {τ : Type} {V : Type} [DecidableEq τ]

/-- The resized vector is long enough to hold the requested slot. -/
theorem lt_length_resizePools (ps : List (Option (EventPool V))) (idx : Nat) :
    idx < (resizePools ps (idx + 1)).length := by
  simp only [resizePools, List.length_append, List.length_replicate]
  omega

/-- GetEventHandler returns the type's id. -/
theorem getEventHandler_idx (T : τ) (bus : EventBus V) (r : Registry τ) :
    (GetEventHandler T bus r).1 = (GetEventId T r).1 := by
  simp only [GetEventHandler]
  split <;> rfl

/-- GetEventHandler updates the registry exactly as GetEventId does. -/
theorem getEventHandler_reg (T : τ) (bus : EventBus V) (r : Registry τ) :
    (GetEventHandler T bus r).2.2 = (GetEventId T r).2 := by
  simp only [GetEventHandler]
  split <;> rfl

/-- After GetEventHandler the slot at the returned id holds a pool. -/
theorem getEventHandler_slot (T : τ) (bus : EventBus V) (r : Registry τ) :
    ((GetEventHandler T bus r).2.1.mEventPools.getD
        (GetEventHandler T bus r).1 none).isSome = true := by
  simp only [GetEventHandler]
  split
  next h =>
    simp only
    rw [getD_set_eq _ _ _ _ (lt_length_resizePools _ _)]
    rfl
  next p h =>
    simp only
    rw [h]
    rfl

/-- GetEventHandler leaves every other slot as it was. -/
theorem getEventHandler_other (T : τ) (bus : EventBus V) (r : Registry τ)
    (j : Nat) (hj : j ≠ (GetEventHandler T bus r).1) :
    (GetEventHandler T bus r).2.1.mEventPools.getD j none =
      bus.mEventPools.getD j none := by
  rw [getEventHandler_idx] at hj
  simp only [GetEventHandler]
  split
  next h =>
    simp only
    rw [getD_set_ne _ _ _ _ _ (fun hc => hj hc.symm)]
    exact getD_append_replicate _ _ _ _
  next p h =>
    simp only
    exact getD_append_replicate _ _ _ _

/-- On an already-resolved type with an existing pool, GetEventHandler is the
identity. -/
theorem getEventHandler_resolved {T : τ} {bus : EventBus V} {r : Registry τ}
    {idx : Nat} {p : EventPool V}
    (hl : lookupId r.assigned T = some idx)
    (hp : bus.mEventPools.getD idx none = some p) :
    GetEventHandler T bus r = (idx, bus, r) := by
  have hid : GetEventId T r = (idx, r) := by
    unfold GetEventId
    rw [hl]
  have hlen : idx < bus.mEventPools.length :=
    lt_length_of_getD_ne _ _ _ (by rw [hp]; exact fun h => Option.noConfusion h)
  have hres : resizePools bus.mEventPools (idx + 1) = bus.mEventPools := by
    unfold resizePools
    rw [Nat.sub_eq_zero_of_le hlen]
    simp
  simp only [GetEventHandler, hid, hres]
  rw [hp]

/-- The shape of a withPool update: the resolved pool at the resolved slot,
updated in place, all other state as GetEventHandler leaves it. -/
theorem withPool_eq (T : τ) (g : EventPool V → EventPool V)
    (bus : EventBus V) (r : Registry τ) :
    ∃ p, (GetEventHandler T bus r).2.1.mEventPools.getD
            (GetEventHandler T bus r).1 none = some p ∧
      withPool T g bus r =
        (⟨(GetEventHandler T bus r).2.1.mEventPools.set
            (GetEventHandler T bus r).1 (some (g p))⟩,
         (GetEventHandler T bus r).2.2) := by
  simp only [withPool]
  cases h : (GetEventHandler T bus r).2.1.mEventPools.getD
      (GetEventHandler T bus r).1 none with
  | none =>
    have := getEventHandler_slot T bus r
    rw [h] at this
    exact absurd this (by simp)
  | some p => exact ⟨p, rfl, rfl⟩

/-- The shape of a trigger at bus level: the resolved pool triggered in
place, and the pool's invocation log tagged with the pool's id. -/
theorem triggerEvent_eq (T : τ) (v : V) (bus : EventBus V) (r : Registry τ) :
    ∃ p, (GetEventHandler T bus r).2.1.mEventPools.getD
            (GetEventHandler T bus r).1 none = some p ∧
      EventBus.TriggerEvent T v bus r =
        (⟨(GetEventHandler T bus r).2.1.mEventPools.set
            (GetEventHandler T bus r).1 (some (p.TriggerEvent v).1)⟩,
         (GetEventHandler T bus r).2.2,
         (p.TriggerEvent v).2.map
           (fun e => ((GetEventHandler T bus r).1, e.1, e.2))) := by
  simp only [EventBus.TriggerEvent]
  cases h : (GetEventHandler T bus r).2.1.mEventPools.getD
      (GetEventHandler T bus r).1 none with
  | none =>
    have := getEventHandler_slot T bus r
    rw [h] at this
    exact absurd this (by simp)
  | some p => exact ⟨p, rfl, rfl⟩

/-- The registry after a withPool update is the GetEventId update. -/
theorem withPool_reg (T : τ) (g : EventPool V → EventPool V)
    (bus : EventBus V) (r : Registry τ) :
    (withPool T g bus r).2 = (GetEventId T r).2 := by
  obtain ⟨p, hp, he⟩ := withPool_eq T g bus r
  rw [he, getEventHandler_reg]

/-- A withPool update leaves every slot other than the resolved one as it
was. -/
theorem withPool_other (T : τ) (g : EventPool V → EventPool V)
    (bus : EventBus V) (r : Registry τ) (j : Nat)
    (hj : j ≠ (GetEventHandler T bus r).1) :
    (withPool T g bus r).1.mEventPools.getD j none =
      bus.mEventPools.getD j none := by
  obtain ⟨p, hp, he⟩ := withPool_eq T g bus r
  rw [he]
  simp only
  rw [getD_set_ne _ _ _ _ _ (fun hc => hj hc.symm)]
  exact getEventHandler_other T bus r j hj

/-- After a withPool update the type's pool exists. -/
theorem poolExists_withPool_self (T : τ) (g : EventPool V → EventPool V)
    (bus : EventBus V) (r : Registry τ) :
    PoolExists T (withPool T g bus r) = true := by
  obtain ⟨p, hp, he⟩ := withPool_eq T g bus r
  rw [he]
  unfold PoolExists
  rw [getEventHandler_reg]
  rw [show ((⟨(GetEventHandler T bus r).2.1.mEventPools.set
      (GetEventHandler T bus r).1 (some (g p))⟩ : EventBus V),
      (GetEventId T r).2).2.assigned = (GetEventId T r).2.assigned from rfl]
  rw [lookupId_after_getEventId]
  simp only
  have hlen : (GetEventHandler T bus r).1 <
      (GetEventHandler T bus r).2.1.mEventPools.length :=
    lt_length_of_getD_ne _ _ _ (by rw [hp]; exact fun h => Option.noConfusion h)
  rw [getEventHandler_idx] at hlen ⊢
  rw [getD_set_eq _ _ _ _ hlen]
  rfl

/-- A withPool update for one type neither creates nor destroys any other
type's pool. -/
theorem poolExists_withPool_other {T T' : τ} (hne : T ≠ T')
    (g : EventPool V → EventPool V) (bus : EventBus V) {r : Registry τ}
    (hg : RegGood r) :
    PoolExists T (withPool T' g bus r) = PoolExists T (bus, r) := by
  obtain ⟨p, hp, he⟩ := withPool_eq T' g bus r
  rw [he]
  unfold PoolExists
  simp only [getEventHandler_reg]
  rw [lookupId_getEventId_other hne]
  cases hl : lookupId r.assigned T with
  | none => rfl
  | some j =>
    simp only
    have hl' : lookupId (GetEventId T' r).2.assigned T = some j :=
      lookupId_getEventId_mono hl
    have hT' : lookupId (GetEventId T' r).2.assigned T' =
        some (GetEventId T' r).1 := lookupId_after_getEventId T' r
    have hgood : RegGood (GetEventId T' r).2 := regGood_getEventId hg T'
    have hne' : j ≠ (GetEventId T' r).1 := regGood_inj hgood hl' hT' hne
    rw [getD_set_ne _ _ _ _ _ (fun hc => hne' (by rw [← getEventHandler_idx T' bus r, hc]))]
    rw [getEventHandler_other T' bus r j
      (by rw [getEventHandler_idx]; exact hne')]

end HandlerLemmas

section DispatchLemmas

variable {τ : Type} {V : Type} [DecidableEq τ]

/-- The loop of the parameterless dispatch rewrites each slot independently:
existing pools are flushed in place, null slots stay null. -/
theorem dispatchPools_fst (ps : List (Option (EventPool V))) (i : Nat) :
    (dispatchPools ps i).1 =
      ps.map (Option.map (fun p => (p.DispatchQueuedEvents).1)) := by
  induction ps generalizing i with
  | nil => rfl
  | cons o rest ih =>
    cases o with
    | none => simp [dispatchPools, ih]
    | some p => simp [dispatchPools, ih]

/-- Every record in the loop's log is tagged with a slot index at or beyond
the starting index. -/
theorem dispatchPools_tag_ge (ps : List (Option (EventPool V))) (i : Nat) :
    ∀ e ∈ (dispatchPools ps i).2, i ≤ e.1 := by
  induction ps generalizing i with
  | nil => intro e he; simp [dispatchPools] at he
  | cons o rest ih =>
    cases o with
    | none =>
      intro e he
      simp only [dispatchPools] at he
      exact Nat.le_of_succ_le (ih (i + 1) e he)
    | some p =>
      intro e he
      simp only [dispatchPools, List.mem_append] at he
      rcases he with he | he
      · obtain ⟨e', _, rfl⟩ := List.mem_map.1 he
        exact Nat.le_refl i
      · exact Nat.le_of_succ_le (ih (i + 1) e he)

/-- The records tagged with one slot index are exactly that slot's own flush
log; an empty slot contributes nothing. -/
theorem dispatchPools_filter (ps : List (Option (EventPool V))) (i k : Nat) :
    (dispatchPools ps i).2.filter (fun e => decide (e.1 = i + k)) =
      (match ps.getD k none with
       | some p => (p.DispatchQueuedEvents).2.map (fun e => (i + k, e.1, e.2))
       | none => []) := by
  induction ps generalizing i k with
  | nil => simp [dispatchPools, List.getD_nil]
  | cons o rest ih =>
    cases o with
    | none =>
      cases k with
      | zero =>
        simp only [dispatchPools, List.getD_cons_zero]
        rw [List.filter_eq_nil_iff.2]
        intro e he
        have := dispatchPools_tag_ge rest (i + 1) e he
        simp only [decide_eq_true_eq]
        omega
      | succ k =>
        simp only [dispatchPools, List.getD_cons_succ]
        rw [show i + (k + 1) = (i + 1) + k by omega]
        exact ih (i + 1) k
    | some p =>
      cases k with
      | zero =>
        simp only [dispatchPools, List.getD_cons_zero, List.filter_append]
        have h1 : List.filter (fun e => decide (e.1 = i + 0))
            (dispatchPools rest (i + 1)).2 = [] := by
          apply List.filter_eq_nil_iff.2
          intro e he
          have := dispatchPools_tag_ge rest (i + 1) e he
          simp only [decide_eq_true_eq]
          omega
        have h2 : List.filter (fun e => decide (e.1 = i + 0))
            ((p.DispatchQueuedEvents).2.map (fun e => (i, e.1, e.2))) =
            (p.DispatchQueuedEvents).2.map (fun e => (i, e.1, e.2)) := by
          apply List.filter_eq_self.2
          intro e he
          obtain ⟨e', _, rfl⟩ := List.mem_map.1 he
          simp
        rw [h1, h2]
        simp
      | succ k =>
        simp only [dispatchPools, List.getD_cons_succ, List.filter_append]
        have h1 : List.filter (fun e => decide (e.1 = i + (k + 1)))
            ((p.DispatchQueuedEvents).2.map (fun e => (i, e.1, e.2))) = [] := by
          apply List.filter_eq_nil_iff.2
          intro e he
          obtain ⟨e', _, rfl⟩ := List.mem_map.1 he
          simp only [decide_eq_true_eq]
          omega
        rw [h1]
        rw [show i + (k + 1) = (i + 1) + k by omega]
        simpa using ih (i + 1) k

/-- The loop's log is ordered by slot index: pools are flushed in ascending
id order. -/
theorem dispatchPools_sorted (ps : List (Option (EventPool V))) (i : Nat) :
    (dispatchPools ps i).2.Pairwise (fun a b => a.1 ≤ b.1) := by
  induction ps generalizing i with
  | nil => simp [dispatchPools]
  | cons o rest ih =>
    cases o with
    | none => simpa [dispatchPools] using ih (i + 1)
    | some p =>
      simp only [dispatchPools]
      apply List.pairwise_append.2
      refine ⟨?_, ih (i + 1), ?_⟩
      · apply List.pairwise_map.2
        apply List.pairwise_of_forall_mem_list
        intro a _ b _
        exact Nat.le_refl i
      · intro a ha b hb
        obtain ⟨a', _, rfl⟩ := List.mem_map.1 ha
        exact Nat.le_of_succ_le (dispatchPools_tag_ge rest (i + 1) b hb)

/-- A pool whose buffer is empty produces an empty flush log. -/
theorem dispatch_empty_log (p : EventPool V) (h : p.mEventQueue = []) :
    (p.DispatchQueuedEvents).2 = [] := by
  simp [EventPool.DispatchQueuedEvents, h]

/-- Clearing all queues empties every existing pool's buffer and touches
nothing else. -/
theorem clearAll_getD (bus : EventBus V) (i : Nat) :
    (EventBus.ClearEventQueues bus).mEventPools.getD i none =
      (bus.mEventPools.getD i none).map EventPool.ClearEventQueue := by
  simp only [EventBus.ClearEventQueues]
  exact getD_map_option _ _ _

/-- Dispatching all queues leaves each slot's occupancy unchanged. -/
theorem dispatchAll_getD (bus : EventBus V) (i : Nat) :
    (EventBus.DispatchQueuedEvents bus).1.mEventPools.getD i none =
      (bus.mEventPools.getD i none).map
        (fun p => (p.DispatchQueuedEvents).1) := by
  simp only [EventBus.DispatchQueuedEvents, dispatchPools_fst]
  exact getD_map_option _ _ _

end DispatchLemmas

section StepLemmas

variable {τ : Type} {V : Type} [DecidableEq τ]

/-- The bus and registry reached by a trigger are a withPool update (the log
aside). -/
theorem triggerEvent_state (T : τ) (v : V) (bus : EventBus V)
    (r : Registry τ) :
    ((EventBus.TriggerEvent T v bus r).1, (EventBus.TriggerEvent T v bus r).2.1) =
      withPool T (fun p => (p.TriggerEvent v).1) bus r := by
  obtain ⟨p₁, h₁, e₁⟩ := triggerEvent_eq T v bus r
  obtain ⟨p₂, h₂, e₂⟩ := withPool_eq T (fun p => (p.TriggerEvent v).1) bus r
  have hp : p₁ = p₂ := by
    rw [h₁] at h₂
    exact Option.some.inj h₂
  subst hp
  rw [e₁, e₂]

/-- The registry after a trigger is the GetEventId update. -/
theorem triggerEvent_reg (T : τ) (v : V) (bus : EventBus V) (r : Registry τ) :
    (EventBus.TriggerEvent T v bus r).2.1 = (GetEventId T r).2 := by
  have := congrArg Prod.snd (triggerEvent_state T v bus r)
  simpa [withPool_reg] using this

/-- A withPool update preserves the registry invariant. -/
theorem regGood_withPool {r : Registry τ} (hg : RegGood r) (T : τ)
    (g : EventPool V → EventPool V) (bus : EventBus V) :
    RegGood (withPool T g bus r).2 := by
  rw [withPool_reg]
  exact regGood_getEventId hg T

/-- A selective clear preserves the registry invariant. -/
theorem regGood_clearSel (Ts : List τ) (bus : EventBus V) {r : Registry τ}
    (hg : RegGood r) :
    RegGood (EventBus.ClearEventQueuesSel Ts bus r).2 := by
  induction Ts generalizing bus r with
  | nil => exact hg
  | cons T Ts ih =>
    show RegGood (EventBus.ClearEventQueuesSel Ts
      (withPool T EventPool.ClearEventQueue bus r).1
      (withPool T EventPool.ClearEventQueue bus r).2).2
    exact ih _ (regGood_withPool hg T _ bus)

/-- A selective clear creates exactly the named pools, preserving all
others. -/
theorem poolExists_clearSel (T : τ) (Ts : List τ) (bus : EventBus V)
    {r : Registry τ} (hg : RegGood r) :
    PoolExists T (EventBus.ClearEventQueuesSel Ts bus r) =
      (decide (T ∈ Ts) || PoolExists T (bus, r)) := by
  induction Ts generalizing bus r with
  | nil => simp [EventBus.ClearEventQueuesSel]
  | cons T' Ts ih =>
    have hstep : EventBus.ClearEventQueuesSel (T' :: Ts) bus r =
        EventBus.ClearEventQueuesSel Ts
          (withPool T' EventPool.ClearEventQueue bus r).1
          (withPool T' EventPool.ClearEventQueue bus r).2 := rfl
    rw [hstep, ih _ (regGood_withPool hg T' _ bus)]
    by_cases hc : T = T'
    · subst hc
      have hself := poolExists_withPool_self T EventPool.ClearEventQueue bus r
      rw [show (withPool T EventPool.ClearEventQueue bus r) =
        ((withPool T EventPool.ClearEventQueue bus r).1,
         (withPool T EventPool.ClearEventQueue bus r).2) from rfl] at hself
      rw [hself]
      simp
    · have hother := poolExists_withPool_other hc EventPool.ClearEventQueue bus hg
      rw [show (withPool T' EventPool.ClearEventQueue bus r) =
        ((withPool T' EventPool.ClearEventQueue bus r).1,
         (withPool T' EventPool.ClearEventQueue bus r).2) from rfl] at hother
      rw [hother]
      simp [hc]

/-- Dispatching all queues neither creates nor destroys pools. -/
theorem poolExists_dispatchAll (T : τ) (bus : EventBus V) (r : Registry τ) :
    PoolExists T ((EventBus.DispatchQueuedEvents bus).1, r) =
      PoolExists T (bus, r) := by
  unfold PoolExists
  cases hl : lookupId r.assigned T with
  | none => rfl
  | some i =>
    simp only [dispatchAll_getD]
    cases bus.mEventPools.getD i none <;> rfl

/-- Clearing all queues neither creates nor destroys pools. -/
theorem poolExists_clearAll (T : τ) (bus : EventBus V) (r : Registry τ) :
    PoolExists T ((EventBus.ClearEventQueues bus), r) = PoolExists T (bus, r) := by
  unfold PoolExists
  cases hl : lookupId r.assigned T with
  | none => rfl
  | some i =>
    simp only [clearAll_getD]
    cases bus.mEventPools.getD i none <;> rfl

/-- Every bus operation preserves the registry invariant. -/
theorem regGood_busStep {s : EventBus V × Registry τ} (hg : RegGood s.2)
    (op : BusOp τ V) : RegGood (busStep s op).2 := by
  cases op with
  | trigger T v =>
    show RegGood (EventBus.TriggerEvent T v s.1 s.2).2.1
    rw [triggerEvent_reg]
    exact regGood_getEventId hg T
  | enqueue T v => exact regGood_withPool hg T _ s.1
  | subscribe T f => exact regGood_withPool hg T _ s.1
  | dispatchAll => exact hg
  | clearAll => exact hg
  | clearSel Ts => exact regGood_clearSel Ts s.1 hg

/-- The effect of one bus operation on a pool's existence: a creating
operation for the type makes the pool exist, every other operation leaves
its existence unchanged. -/
theorem poolExists_busStep (T : τ) {s : EventBus V × Registry τ}
    (hg : RegGood s.2) (op : BusOp τ V) :
    PoolExists T (busStep s op) = (opCreates T op || PoolExists T s) := by
  cases op with
  | trigger T' v =>
    have hstate : busStep s (.trigger T' v) =
        withPool T' (fun p => (p.TriggerEvent v).1) s.1 s.2 := by
      show ((EventBus.TriggerEvent T' v s.1 s.2).1,
        (EventBus.TriggerEvent T' v s.1 s.2).2.1) = _
      exact triggerEvent_state T' v s.1 s.2
    rw [hstate]
    by_cases hc : T' = T
    · subst hc
      rw [poolExists_withPool_self]
      simp [opCreates]
    · rw [poolExists_withPool_other (fun h => hc h.symm) _ s.1 hg]
      simp [opCreates, hc]
  | enqueue T' v =>
    show PoolExists T (withPool T' (fun p => p.EnqueueEvent v) s.1 s.2) = _
    by_cases hc : T' = T
    · subst hc
      rw [poolExists_withPool_self]
      simp [opCreates]
    · rw [poolExists_withPool_other (fun h => hc h.symm) _ s.1 hg]
      simp [opCreates, hc]
  | subscribe T' f =>
    show PoolExists T
      (withPool T' (fun p => { p with mSignal := p.mSignal ++ [f] }) s.1 s.2) = _
    by_cases hc : T' = T
    · subst hc
      rw [poolExists_withPool_self]
      simp [opCreates]
    · rw [poolExists_withPool_other (fun h => hc h.symm) _ s.1 hg]
      simp [opCreates, hc]
  | dispatchAll =>
    show PoolExists T ((EventBus.DispatchQueuedEvents s.1).1, s.2) = _
    rw [poolExists_dispatchAll]
    simp [opCreates]
  | clearAll =>
    show PoolExists T ((EventBus.ClearEventQueues s.1), s.2) = _
    rw [poolExists_clearAll]
    simp [opCreates]
  | clearSel Ts =>
    show PoolExists T (EventBus.ClearEventQueuesSel Ts s.1 s.2) = _
    rw [poolExists_clearSel T Ts s.1 hg]
    simp [opCreates]

/-- Pool existence over a whole program: a pool exists at the end exactly
when some performed operation created it or it already existed. -/
theorem poolExists_foldl (T : τ) :
    ∀ (ops : List (BusOp τ V)) (s : EventBus V × Registry τ), RegGood s.2 →
      PoolExists T (ops.foldl busStep s) = (seenCreating ops T || PoolExists T s) := by
  intro ops
  induction ops with
  | nil => intro s hs; simp [seenCreating]
  | cons op ops ih =>
    intro s hs
    rw [List.foldl_cons, ih _ (regGood_busStep hs op), poolExists_busStep T hs op]
    have hsc : seenCreating (op :: ops) T = (opCreates T op || seenCreating ops T) := rfl
    rw [hsc]
    generalize opCreates T op = a
    generalize seenCreating ops T = b
    generalize PoolExists T s = c
    cases a <;> cases b <;> cases c <;> rfl

/-- The registry of every reachable bus state satisfies the registry
invariant. -/
theorem regGood_busRun (ops : List (BusOp τ V)) :
    RegGood (busRun ops).2 := by
  have : ∀ (ops : List (BusOp τ V)) (s : EventBus V × Registry τ),
      RegGood s.2 → RegGood (ops.foldl busStep s).2 := by
    intro ops
    induction ops with
    | nil => intro s hs; exact hs
    | cons op ops ih => intro s hs; exact ih _ (regGood_busStep hs op)
  exact this ops _ regGood_init

end StepLemmas

section EnqueueLemmas

variable {τ : Type} {V : Type} [DecidableEq τ]

/-- Writing back the value a slot already holds changes nothing. -/
theorem set_getD_self {α : Type} (l : List α) (i : Nat) (d : α) :
    l.set i (l.getD i d) = l := by
  induction l generalizing i with
  | nil => rfl
  | cons a l ih =>
    cases i with
    | zero => rfl
    | succ i => simpa using ih i

/-- A withPool update on an already-resolved type with an existing pool
updates that pool in place. -/
theorem withPool_resolved {T : τ} {bus : EventBus V} {r : Registry τ}
    {idx : Nat} {p : EventPool V} (g : EventPool V → EventPool V)
    (hl : lookupId r.assigned T = some idx)
    (hp : bus.mEventPools.getD idx none = some p) :
    withPool T g bus r = (⟨bus.mEventPools.set idx (some (g p))⟩, r) := by
  simp only [withPool, getEventHandler_resolved hl hp]
  rw [hp]

/-- Enqueuing a whole sequence into an already-resolved pool appends the
sequence to that pool's buffer, in order, and touches nothing else. -/
theorem enqueueMany_resolved {T : τ} {bus : EventBus V} {r : Registry τ}
    {idx : Nat} {p : EventPool V} (as : List V)
    (hl : lookupId r.assigned T = some idx)
    (hp : bus.mEventPools.getD idx none = some p) :
    enqueueMany T as (bus, r) =
      (⟨bus.mEventPools.set idx (some ⟨p.mSignal, p.mEventQueue ++ as⟩)⟩, r) := by
  induction as generalizing bus p with
  | nil =>
    show (bus, r) = _
    rw [List.append_nil]
    rw [show (⟨p.mSignal, p.mEventQueue⟩ : EventPool V) = p from rfl]
    rw [← hp, set_getD_self]
  | cons a as ih =>
    show enqueueMany T as (EventBus.EnqueueEvent T a bus r) = _
    have hstep : EventBus.EnqueueEvent T a bus r =
        (⟨bus.mEventPools.set idx (some (p.EnqueueEvent a))⟩, r) :=
      withPool_resolved _ hl hp
    rw [hstep]
    have hlen : idx < bus.mEventPools.length :=
      lt_length_of_getD_ne _ _ _
        (by rw [hp]; exact fun h => Option.noConfusion h)
    have hp' : (bus.mEventPools.set idx (some (p.EnqueueEvent a))).getD idx none
        = some (p.EnqueueEvent a) := getD_set_eq _ _ _ _ hlen
    rw [ih hp']
    simp only [EventPool.EnqueueEvent, List.set_set]
    rw [List.append_assoc]
    rfl

/-- If every existing pool's buffer is empty, the dispatch loop logs no
invocation. -/
theorem dispatchPools_log_nil (ps : List (Option (EventPool V))) (i : Nat)
    (h : ∀ p : EventPool V, some p ∈ ps → p.mEventQueue = []) :
    (dispatchPools ps i).2 = [] := by
  induction ps generalizing i with
  | nil => rfl
  | cons o rest ih =>
    cases o with
    | none =>
      simp only [dispatchPools]
      exact ih (i + 1) (fun p hp => h p (List.mem_cons_of_mem _ hp))
    | some p =>
      simp only [dispatchPools]
      rw [dispatch_empty_log p (h p (List.mem_cons_self _ _)),
        ih (i + 1) (fun p hp => h p (List.mem_cons_of_mem _ hp))]
      rfl

/-- Filtering one slot's tagged flush log down to one callable index yields
that callable's invocations: each buffered event once, in buffer order. -/
theorem range_filter_single (idx i n : Nat) (v : V) (hi : i < n) :
    (((List.range n).map (fun j => (j, v))).map
        (fun e => (idx, e.1, e.2))).filter (fun e => decide (e.2.1 = i)) =
      [(idx, i, v)] := by
  induction n with
  | zero => omega
  | succ n ihn =>
    rw [List.range_succ]
    by_cases hin : i < n
    · simp only [List.map_append, List.filter_append, ihn hin]
      have : List.filter (fun e => decide (e.2.1 = i))
          ((([n].map (fun j => (j, v))).map (fun e => (idx, e.1, e.2)))) = [] := by
        apply List.filter_eq_nil_iff.2
        intro e he
        simp only [List.map_cons, List.map_nil, List.mem_singleton] at he
        subst he
        simp only [decide_eq_true_eq]
        omega
      rw [this, List.append_nil]
    · have hieq : i = n := by omega
      subst hieq
      simp only [List.map_append, List.filter_append]
      have h1 : List.filter (fun e => decide (e.2.1 = i))
          (((List.range i).map (fun j => (j, v))).map
            (fun e => (idx, e.1, e.2))) = [] := by
        apply List.filter_eq_nil_iff.2
        intro e he
        simp only [List.mem_map] at he
        obtain ⟨e', ⟨j, hj, rfl⟩, rfl⟩ := he
        simp only [decide_eq_true_eq]
        have := List.mem_range.1 hj
        omega
      rw [h1]
      simp

/-- One pool's tagged flush log, filtered to one bound callable, is the
buffer mapped to that callable's invocations, in buffer order. -/
theorem pool_log_filter_handler (P : EventPool V) (idx i : Nat)
    (hi : i < P.mSignal.length) :
    ((P.DispatchQueuedEvents).2.map (fun e => (idx, e.1, e.2))).filter
        (fun e => decide (e.2.1 = i)) =
      P.mEventQueue.map (fun v => (idx, i, v)) := by
  show ((P.mEventQueue.flatMap (fun v => (invokeSignal P.mSignal v).1)).map
      (fun e => (idx, e.1, e.2))).filter (fun e => decide (e.2.1 = i)) = _
  induction P.mEventQueue with
  | nil => rfl
  | cons v vs ih =>
    simp only [List.flatMap_cons, List.map_append, List.filter_append, ih]
    rw [show (invokeSignal P.mSignal v).1 =
      (List.range P.mSignal.length).map (fun j => (j, v)) from rfl]
    rw [range_filter_single idx i P.mSignal.length v hi]
    rfl

end EnqueueLemmas

section Claims

variable {τ : Type} {V : Type} [DecidableEq τ]

/-- Claim C10: when EventPool::DispatchQueuedEvents returns, the pool's
pending buffer is unconditionally empty — any events bound callables
re-entrantly enqueued during the flush are removed by the terminal
ClearEventQueue() rather than surviving for a later dispatch — and the bound
callables are untouched. -/
theorem claim_C10_buffer_empty_after_pool_dispatch (p : EventPool V) :
    (p.DispatchQueuedEvents).1.mEventQueue = [] ∧
    (p.DispatchQueuedEvents).1.mSignal = p.mSignal :=
  ⟨rfl, rfl⟩

/-- Claim C1, counterexample to the claim as stated: samplePool holds one
pending event 5 and one callable that re-entrantly enqueues 6 when invoked
with 5.  The first dispatch invokes the callable only with 5 (consistent
with the claim's first half), the callable does enqueue 6 during the flush,
yet the buffer is empty when the dispatch returns and the next dispatch call
invokes nothing — the claim's promise that the newly enqueued event is
delivered on the next dispatch call fails. -/
theorem claim_C1_counterexample :
    (samplePool.mSignal.map (fun h => h 5)).flatten = [6] ∧
    (samplePool.DispatchQueuedEvents).2 = [(0, 5)] ∧
    (samplePool.DispatchQueuedEvents).1.mEventQueue = [] ∧
    ((samplePool.DispatchQueuedEvents).1.DispatchQueuedEvents).2 = [] :=
  ⟨rfl, rfl, rfl, rfl⟩

/-- Claim C1 (amended): if a bound callable enqueues further events of the
same type while the pool's DispatchQueuedEvents is running, those newly
enqueued events are not invoked within the in-progress flush (the flush
iterates the buffer as it was at the start of the call), and they are not
delivered on a later dispatch call either: the terminal clear discards them,
leaving the buffer empty, so the next dispatch call delivers nothing. -/
theorem claim_C1_reentrant_enqueues_discarded (p : EventPool V) :
    (∀ e ∈ (p.DispatchQueuedEvents).2, e.2 ∈ p.mEventQueue) ∧
    (p.DispatchQueuedEvents).1.mEventQueue = [] ∧
    ((p.DispatchQueuedEvents).1.DispatchQueuedEvents).2 = [] := by
  refine ⟨?_, rfl, rfl⟩
  intro e he
  simp only [EventPool.DispatchQueuedEvents, List.mem_flatMap] at he
  obtain ⟨v, hv, he'⟩ := he
  obtain ⟨i, hi, rfl⟩ := List.mem_map.1 he'
  exact hv

/-- Witness for claim C1's amended theorem at the sample pool. -/
theorem claim_C1_reentrant_enqueues_discarded_witness :
    ((0, 5) : Nat × Nat).2 ∈ samplePool.mEventQueue ∧
    (samplePool.DispatchQueuedEvents).1.mEventQueue = [] :=
  ⟨(claim_C1_reentrant_enqueues_discarded samplePool).1 (0, 5) (by decide),
   (claim_C1_reentrant_enqueues_discarded samplePool).2.1⟩

/-- Claim C3: enqueuing a sequence of events for a type into a resolved pool
with an empty buffer and then dispatching all queued events invokes each
currently bound callable with exactly that sequence of values, in order,
once per buffered event, and leaves the type's buffer empty with its bound
callables intact. -/
theorem claim_C3_enqueue_then_dispatch_in_order
    (bus : EventBus V) (r : Registry τ) (T : τ) (as : List V)
    (idx : Nat) (p : EventPool V) (i : Nat)
    (hl : lookupId r.assigned T = some idx)
    (hp : bus.mEventPools.getD idx none = some p)
    (hq : p.mEventQueue = [])
    (hi : i < p.mSignal.length) :
    (((EventBus.DispatchQueuedEvents (enqueueMany T as (bus, r)).1).2.filter
        (fun e => decide (e.1 = idx))).filter
        (fun e => decide (e.2.1 = i))) = as.map (fun a => (idx, i, a)) ∧
    (EventBus.DispatchQueuedEvents
        (enqueueMany T as (bus, r)).1).1.mEventPools.getD idx none =
      some ⟨p.mSignal, []⟩ := by
  have henq : enqueueMany T as (bus, r) =
      (⟨bus.mEventPools.set idx (some ⟨p.mSignal, as⟩)⟩, r) := by
    rw [enqueueMany_resolved as hl hp, hq]
    rfl
  have hlen : idx < bus.mEventPools.length :=
    lt_length_of_getD_ne _ _ _
      (by rw [hp]; exact fun h => Option.noConfusion h)
  have hslot : (bus.mEventPools.set idx
      (some (⟨p.mSignal, as⟩ : EventPool V))).getD idx none =
      some ⟨p.mSignal, as⟩ :=
    getD_set_eq _ _ _ _ hlen
  constructor
  · rw [henq]
    have hfil := dispatchPools_filter
      (bus.mEventPools.set idx (some (⟨p.mSignal, as⟩ : EventPool V))) 0 idx
    rw [Nat.zero_add, hslot] at hfil
    show ((dispatchPools _ 0).2.filter (fun e => decide (e.1 = idx))).filter
        (fun e => decide (e.2.1 = i)) = _
    rw [hfil]
    exact pool_log_filter_handler ⟨p.mSignal, as⟩ idx i hi
  · rw [henq]
    rw [show (EventBus.DispatchQueuedEvents
        (⟨bus.mEventPools.set idx (some (⟨p.mSignal, as⟩ : EventPool V))⟩ :
          EventBus V)).1.mEventPools.getD idx none =
      ((⟨bus.mEventPools.set idx (some (⟨p.mSignal, as⟩ : EventPool V))⟩ :
          EventBus V).mEventPools.getD idx none).map
        (fun p => (p.DispatchQueuedEvents).1) from dispatchAll_getD _ idx]
    rw [show (⟨bus.mEventPools.set idx (some (⟨p.mSignal, as⟩ : EventPool V))⟩ :
        EventBus V).mEventPools = bus.mEventPools.set idx
        (some (⟨p.mSignal, as⟩ : EventPool V)) from rfl]
    rw [hslot]
    rfl

/-- Witness for claim C3's theorem: a callable subscribed to type 0, events
5 and 7 enqueued, then a full dispatch delivers 5 then 7 to that callable
and leaves the buffer empty. -/
theorem claim_C3_enqueue_then_dispatch_in_order_witness :
    (((EventBus.DispatchQueuedEvents
          (enqueueMany 0 [5, 7] sampleSub).1).2.filter
        (fun e => decide (e.1 = 0))).filter
        (fun e => decide (e.2.1 = 0))) = [(0, 0, 5), (0, 0, 7)] ∧
    (EventBus.DispatchQueuedEvents
        (enqueueMany 0 [5, 7] sampleSub).1).1.mEventPools.getD 0 none =
      some ⟨[noopHandler], []⟩ := by
  have h := claim_C3_enqueue_then_dispatch_in_order sampleSub.1 sampleSub.2
    0 [5, 7] 0 ⟨[noopHandler], []⟩ 0 rfl rfl rfl (by decide)
  exact ⟨h.1, h.2⟩

/-- Claim C6: clearing all event queues after any sequence of enqueues
leaves every pool's bound callables unchanged, empties every existing
pool's buffer without invoking anything, and a subsequent full dispatch
produces zero invocations. -/
theorem claim_C6_clear_then_dispatch_nothing
    (bus : EventBus V) (r : Registry τ) (T : τ) (as : List V) :
    (∀ i : Nat,
      ((EventBus.ClearEventQueues
          (enqueueMany T as (bus, r)).1).mEventPools.getD i none).map
          (fun p => p.mSignal) =
        (((enqueueMany T as (bus, r)).1).mEventPools.getD i none).map
          (fun p => p.mSignal)) ∧
    (∀ i : Nat,
      ((EventBus.ClearEventQueues
          (enqueueMany T as (bus, r)).1).mEventPools.getD i none).elim
          True (fun p => p.mEventQueue = [])) ∧
    (EventBus.DispatchQueuedEvents
        (EventBus.ClearEventQueues (enqueueMany T as (bus, r)).1)).2 = [] := by
  refine ⟨?_, ?_, ?_⟩
  · intro i
    rw [clearAll_getD]
    cases (enqueueMany T as (bus, r)).1.mEventPools.getD i none <;> rfl
  · intro i
    rw [clearAll_getD]
    cases (enqueueMany T as (bus, r)).1.mEventPools.getD i none with
    | none => exact trivial
    | some q => exact rfl
  · show (dispatchPools
      (EventBus.ClearEventQueues (enqueueMany T as (bus, r)).1).mEventPools 0).2 = []
    apply dispatchPools_log_nil
    intro p hp
    simp only [EventBus.ClearEventQueues, List.mem_map] at hp
    obtain ⟨o, ho, hoe⟩ := hp
    cases o with
    | none => exact absurd hoe (by simp)
    | some q =>
      have hq : p = q.ClearEventQueue := by
        simpa using hoe.symm
      rw [hq]
      rfl

/-- Claim C8: the parameterless dispatch flushes every existing pool in
ascending type-id (slot) order, each exactly as the pool's own flush does,
leaves each slot's occupancy unchanged (never instantiating a pool for a
type that has none), and absent slots contribute no invocations. -/
theorem claim_C8_dispatch_all_in_id_order (bus : EventBus V) :
    ((EventBus.DispatchQueuedEvents bus).1.mEventPools.length =
      bus.mEventPools.length) ∧
    (∀ i : Nat,
      ((EventBus.DispatchQueuedEvents bus).1.mEventPools.getD i none).isSome =
        (bus.mEventPools.getD i none).isSome) ∧
    ((EventBus.DispatchQueuedEvents bus).2.Pairwise (fun a b => a.1 ≤ b.1)) ∧
    (∀ i : Nat,
      (EventBus.DispatchQueuedEvents bus).2.filter
          (fun e => decide (e.1 = i)) =
        (match bus.mEventPools.getD i none with
         | some p => (p.DispatchQueuedEvents).2.map (fun e => (i, e.1, e.2))
         | none => [])) := by
  refine ⟨?_, ?_, ?_, ?_⟩
  · show (dispatchPools bus.mEventPools 0).1.length = _
    rw [dispatchPools_fst]
    simp
  · intro i
    rw [dispatchAll_getD]
    cases bus.mEventPools.getD i none <;> rfl
  · exact dispatchPools_sorted _ 0
  · intro i
    have h := dispatchPools_filter bus.mEventPools 0 i
    rwa [Nat.zero_add] at h

end Claims

section ClaimsTwo

variable {τ : Type} {V : Type} [DecidableEq τ]

/-- A selective dispatch of a single type resolves the pool and flushes it in
place, logging the pool's own flush tagged with its id. -/
theorem dispatchSel_single_eq (T : τ) (bus : EventBus V) (r : Registry τ) :
    ∃ p, (GetEventHandler T bus r).2.1.mEventPools.getD
        (GetEventHandler T bus r).1 none = some p ∧
      EventBus.DispatchQueuedEventsSel [T] bus r =
        (⟨(GetEventHandler T bus r).2.1.mEventPools.set
            (GetEventHandler T bus r).1 (some (p.DispatchQueuedEvents).1)⟩,
         (GetEventHandler T bus r).2.2,
         (p.DispatchQueuedEvents).2.map
           (fun e => ((GetEventHandler T bus r).1, e.1, e.2))) := by
  simp only [EventBus.DispatchQueuedEventsSel, List.foldl_cons, List.foldl_nil]
  cases h : (GetEventHandler T bus r).2.1.mEventPools.getD
      (GetEventHandler T bus r).1 none with
  | none =>
    have := getEventHandler_slot T bus r
    rw [h] at this
    exact absurd this (by simp)
  | some p => exact ⟨p, rfl, by simp⟩

/-- Claim C2 (for the intended selective dispatch, see
EventBus.DispatchQueuedEventsSel: the overload in the source does not
compile): a selective dispatch of one type flushes exactly that type's
pool — each buffered event of the type invoked as the pool's own flush
prescribes, then that buffer emptied — and leaves every other slot, pending
buffers included, exactly as it was. -/
theorem claim_C2_selective_dispatch_flushes_only_named
    (bus : EventBus V) (r : Registry τ) (T : τ) (p : EventPool V)
    (hp : (GetEventHandler T bus r).2.1.mEventPools.getD
        (GetEventHandler T bus r).1 none = some p) :
    (EventBus.DispatchQueuedEventsSel [T] bus r).2.2 =
      (p.DispatchQueuedEvents).2.map
        (fun e => ((GetEventHandler T bus r).1, e.1, e.2)) ∧
    (EventBus.DispatchQueuedEventsSel [T] bus r).1.mEventPools.getD
        (GetEventHandler T bus r).1 none = some (p.DispatchQueuedEvents).1 ∧
    ((p.DispatchQueuedEvents).1.mEventQueue = []) ∧
    (∀ j, j ≠ (GetEventHandler T bus r).1 →
      (EventBus.DispatchQueuedEventsSel [T] bus r).1.mEventPools.getD j none =
        bus.mEventPools.getD j none) := by
  obtain ⟨p', hp', he⟩ := dispatchSel_single_eq T bus r
  have hpe : p' = p := Option.some.inj (hp'.symm.trans hp)
  subst hpe
  have hlen : (GetEventHandler T bus r).1 <
      (GetEventHandler T bus r).2.1.mEventPools.length :=
    lt_length_of_getD_ne _ _ _
      (by rw [hp]; exact fun h => Option.noConfusion h)
  refine ⟨?_, ?_, rfl, ?_⟩
  · rw [he]
  · rw [he]
    exact getD_set_eq _ _ _ _ hlen
  · intro j hj
    rw [he]
    show ((GetEventHandler T bus r).2.1.mEventPools.set
        (GetEventHandler T bus r).1
        (some (p'.DispatchQueuedEvents).1)).getD j none = _
    rw [getD_set_ne _ _ _ _ _ (fun hc => hj hc.symm)]
    exact getEventHandler_other T bus r j hj

/-- Witness for claim C2's theorem: with subscribers on types 0 and 1 and a
pending event 9 for type 1, the selective dispatch of type 0 logs nothing
(type 0's buffer is empty), keeps type 0's pool, and leaves type 1's pool
with its pending event untouched. -/
theorem claim_C2_selective_dispatch_flushes_only_named_witness :
    (EventBus.DispatchQueuedEventsSel [0] sampleTwo.1 sampleTwo.2).2.2 = [] ∧
    (EventBus.DispatchQueuedEventsSel
        [0] sampleTwo.1 sampleTwo.2).1.mEventPools.getD 0 none =
      some ⟨[noopHandler], []⟩ ∧
    (EventBus.DispatchQueuedEventsSel
        [0] sampleTwo.1 sampleTwo.2).1.mEventPools.getD 1 none =
      some ⟨[noopHandler], [9]⟩ := by
  have h := claim_C2_selective_dispatch_flushes_only_named sampleTwo.1
    sampleTwo.2 0 ⟨[noopHandler], []⟩ rfl
  exact ⟨h.1, h.2.1, h.2.2.2 1 (by decide)⟩

/-- Claim C4: in every reachable registry state, the first id request for a
type not yet cached allocates the next sequential id (the number of already
cached types) from the single counter; requests for a cached type return the
cached id and change nothing; distinct types never share an id; and the
cached ids are dense, exactly the ids below the counter. -/
theorem claim_C4_registry_ids (r : Registry τ) (hr : RegReachable r) :
    (∀ T, lookupId r.assigned T = none →
        GetEventId T r =
          (r.assigned.length,
           ⟨r.assigned.length + 1, (T, r.assigned.length) :: r.assigned⟩)) ∧
    (∀ T i, lookupId r.assigned T = some i → GetEventId T r = (i, r)) ∧
    (∀ T U i j, lookupId r.assigned T = some i →
        lookupId r.assigned U = some j → T ≠ U → i ≠ j) ∧
    (∀ i, (∃ T, lookupId r.assigned T = some i) ↔ i < r.nextId) := by
  have hg : RegGood r := regGood_of_reachable hr
  have hlen := regGood_length hg
  refine ⟨?_, ?_, ?_, fun i => regGood_dense hg i⟩
  · intro T hT
    unfold GetEventId
    rw [hT, hlen]
  · intro T i hT
    unfold GetEventId
    rw [hT]
  · intro T U i j hT hU hne
    exact regGood_inj hg hT hU hne

/-- Witness for claim C4's theorem at the registry reached by requesting
ids for types 0 and 1: a fresh type gets the next id 2, a cached type gets
its id back unchanged, ids 0 and 1 differ, and id 1 is below the counter. -/
theorem claim_C4_registry_ids_witness :
    GetEventId (5 : Nat) (⟨2, [(1, 1), (0, 0)]⟩ : Registry Nat) =
      (2, ⟨3, [(5, 2), (1, 1), (0, 0)]⟩) ∧
    GetEventId (0 : Nat) (⟨2, [(1, 1), (0, 0)]⟩ : Registry Nat) =
      (0, ⟨2, [(1, 1), (0, 0)]⟩) ∧
    ((0 : Nat) ≠ 1) ∧ ((1 : Nat) < 2) := by
  have h := claim_C4_registry_ids (⟨2, [(1, 1), (0, 0)]⟩ : Registry Nat)
    ⟨[0, 1], rfl⟩
  exact ⟨h.1 5 (by decide), h.2.1 0 0 (by decide),
    h.2.2.1 0 1 0 1 (by decide) (by decide) (by decide),
    (h.2.2.2 1).1 ⟨1, by decide⟩⟩

/-- Claim C5: a trigger resolves the type's pool and invokes every callable
currently bound to it exactly once with the event value, before returning;
provided the bound callables do not themselves re-enter the bus for this
event, the type's pending buffer (indeed, the whole pool) is unchanged, and
so is every other type's slot. -/
theorem claim_C5_trigger_immediate_no_buffering
    (bus : EventBus V) (r : Registry τ) (T : τ) (v : V) (p : EventPool V)
    (hp : (GetEventHandler T bus r).2.1.mEventPools.getD
        (GetEventHandler T bus r).1 none = some p)
    (hnre : ∀ f ∈ p.mSignal, f v = ([] : List V)) :
    (EventBus.TriggerEvent T v bus r).2.2 =
      (List.range p.mSignal.length).map
        (fun i => ((GetEventHandler T bus r).1, i, v)) ∧
    (EventBus.TriggerEvent T v bus r).1.mEventPools.getD
        (GetEventHandler T bus r).1 none = some p ∧
    (∀ j, j ≠ (GetEventHandler T bus r).1 →
      (EventBus.TriggerEvent T v bus r).1.mEventPools.getD j none =
        bus.mEventPools.getD j none) := by
  obtain ⟨p', hp', he⟩ := triggerEvent_eq T v bus r
  have hpe : p' = p := Option.some.inj (hp'.symm.trans hp)
  subst hpe
  have htr1 : (p'.TriggerEvent v).1 = p' := by
    show { p' with
      mEventQueue := p'.mEventQueue ++ (invokeSignal p'.mSignal v).2 } = p'
    have hnil : (invokeSignal p'.mSignal v).2 = [] := by
      show (p'.mSignal.map (fun h => h v)).flatten = []
      apply List.flatten_eq_nil_iff.2
      intro l hl
      obtain ⟨f, hf, rfl⟩ := List.mem_map.1 hl
      exact hnre f hf
    rw [hnil, List.append_nil]
  have hlen : (GetEventHandler T bus r).1 <
      (GetEventHandler T bus r).2.1.mEventPools.length :=
    lt_length_of_getD_ne _ _ _
      (by rw [hp]; exact fun h => Option.noConfusion h)
  refine ⟨?_, ?_, ?_⟩
  · rw [he]
    show (((List.range p'.mSignal.length).map (fun i => (i, v))).map
        (fun e => ((GetEventHandler T bus r).1, e.1, e.2))) = _
    rw [List.map_map]
    rfl
  · rw [he]
    show ((GetEventHandler T bus r).2.1.mEventPools.set
        (GetEventHandler T bus r).1 (some (p'.TriggerEvent v).1)).getD
        (GetEventHandler T bus r).1 none = _
    rw [htr1]
    exact getD_set_eq _ _ _ _ hlen
  · intro j hj
    rw [he]
    show ((GetEventHandler T bus r).2.1.mEventPools.set
        (GetEventHandler T bus r).1 (some (p'.TriggerEvent v).1)).getD
        j none = _
    rw [getD_set_ne _ _ _ _ _ (fun hc => hj hc.symm)]
    exact getEventHandler_other T bus r j hj

/-- Witness for claim C5's theorem: triggering event 7 on type 0 with one
subscribed callable invokes it once with 7 and leaves both slots as they
were. -/
theorem claim_C5_trigger_immediate_no_buffering_witness :
    (EventBus.TriggerEvent 0 7 sampleSub.1 sampleSub.2).2.2 = [(0, 0, 7)] ∧
    (EventBus.TriggerEvent
        0 7 sampleSub.1 sampleSub.2).1.mEventPools.getD 0 none =
      some ⟨[noopHandler], []⟩ ∧
    (EventBus.TriggerEvent
        0 7 sampleSub.1 sampleSub.2).1.mEventPools.getD 1 none = none := by
  have hnre : ∀ f ∈ (⟨[noopHandler], []⟩ : EventPool Nat).mSignal,
      f 7 = ([] : List Nat) := by
    intro f hf
    rw [show (⟨[noopHandler], []⟩ : EventPool Nat).mSignal = [noopHandler]
      from rfl] at hf
    rw [List.mem_singleton] at hf
    subst hf
    rfl
  have h := claim_C5_trigger_immediate_no_buffering sampleSub.1 sampleSub.2
    0 7 ⟨[noopHandler], []⟩ rfl hnre
  exact ⟨h.1, h.2.1, h.2.2 1 (by decide)⟩

/-- Claim C9: with both types registered, in an invariant-satisfying
registry state, distinct event types have distinct pool ids; a trigger for
one type logs invocations only against that type's pool id; and enqueuing
an event for one type does not change what a full dispatch delivers against
the other type's pool id. -/
theorem claim_C9_no_cross_type_delivery
    (bus : EventBus V) (r : Registry τ) (T U : τ) (iT iU : Nat) (v : V)
    (hg : RegGood r)
    (hT : lookupId r.assigned T = some iT)
    (hU : lookupId r.assigned U = some iU)
    (hne : T ≠ U) :
    iT ≠ iU ∧
    (∀ e ∈ (EventBus.TriggerEvent T v bus r).2.2, e.1 = iT) ∧
    ((EventBus.DispatchQueuedEvents
        (EventBus.EnqueueEvent T v bus r).1).2.filter
        (fun e => decide (e.1 = iU)) =
      (EventBus.DispatchQueuedEvents bus).2.filter
        (fun e => decide (e.1 = iU))) := by
  have hidT : (GetEventHandler T bus r).1 = iT := by
    rw [getEventHandler_idx]
    unfold GetEventId
    rw [hT]
  have hne' : iT ≠ iU := regGood_inj hg hT hU hne
  refine ⟨hne', ?_, ?_⟩
  · intro e he
    obtain ⟨p, hp, heq⟩ := triggerEvent_eq T v bus r
    rw [heq] at he
    have he' : e ∈ (p.TriggerEvent v).2.map
        (fun e => ((GetEventHandler T bus r).1, e.1, e.2)) := he
    obtain ⟨e', _, rfl⟩ := List.mem_map.1 he'
    exact hidT
  · have hgd : (EventBus.EnqueueEvent T v bus r).1.mEventPools.getD iU none =
        bus.mEventPools.getD iU none := by
      show (withPool T (fun p => p.EnqueueEvent v)
        bus r).1.mEventPools.getD iU none = _
      exact withPool_other T _ bus r iU (by rw [hidT]; exact hne'.symm)
    have h1 := dispatchPools_filter
      (EventBus.EnqueueEvent T v bus r).1.mEventPools 0 iU
    have h2 := dispatchPools_filter bus.mEventPools 0 iU
    rw [Nat.zero_add] at h1 h2
    show (dispatchPools _ 0).2.filter _ = (dispatchPools _ 0).2.filter _
    rw [h1, h2, hgd]

/-- Witness for claim C9's theorem on the two-type sample state: ids 0 and 1
differ, a trigger for type 0 logs only against pool 0, and enqueuing a type
0 event changes nothing about what a dispatch delivers against pool 1. -/
theorem claim_C9_no_cross_type_delivery_witness :
    ((0 : Nat) ≠ 1) ∧
    (((0, 0, 7) : Nat × Nat × Nat).1 = 0) ∧
    ((EventBus.DispatchQueuedEvents
        (EventBus.EnqueueEvent 0 7 sampleTwo.1 sampleTwo.2).1).2.filter
        (fun e => decide (e.1 = 1)) =
      (EventBus.DispatchQueuedEvents sampleTwo.1).2.filter
        (fun e => decide (e.1 = 1))) := by
  have h := claim_C9_no_cross_type_delivery sampleTwo.1 sampleTwo.2 0 1 0 1 7
    ⟨by decide, by decide⟩ (by decide) (by decide) (by decide)
  exact ⟨h.1, h.2.1 (0, 0, 7) (by decide), h.2.2⟩

/-- Claim C7, counterexample to the claim as stated: a program consisting of
the single operation ClearEventQueues over the type list containing type 0
creates type 0's pool (the selective clear resolves pools through
GetEventHandler), although no Trigger, Enqueue, or Subscribe for type 0 was
ever performed. -/
theorem claim_C7_counterexample :
    PoolExists (0 : Nat)
      (busRun [BusOp.clearSel [0]] : EventBus Nat × Registry Nat) = true ∧
    seenTES ([BusOp.clearSel [0]] : List (BusOp Nat Nat)) 0 = false := by
  constructor <;> rfl

/-- Claim C7 (amended): in every reachable bus state, the pool for an event
type exists exactly when the program performed at least one pool-creating
operation for it: a Trigger, Enqueue, or Subscribe for the type, or a
selective ClearEventQueues naming it.  No other operation creates a pool and
a created pool is never destroyed. -/
theorem claim_C7_pool_exists_iff_creating_op
    (ops : List (BusOp τ V)) (T : τ) :
    PoolExists T (busRun ops) = seenCreating ops T := by
  have h := poolExists_foldl T ops
    ((initBus : EventBus V), (initRegistry : Registry τ)) regGood_init
  have hinit : PoolExists T
      ((initBus : EventBus V), (initRegistry : Registry τ)) = false := rfl
  show PoolExists T (ops.foldl busStep (initBus, initRegistry)) = _
  rw [h, hinit, Bool.or_false]

end ClaimsTwo
